import Mathlib

set_option linter.unusedVariables false
set_option maxRecDepth 100000

/- Shallow embedding of the video_streaming_node repository.

   Covered source: the range resolver and range-aware server
   (src/services/videoStreamService.js and src/services/r2StreamService.js),
   the HLS playlist builder and the transcoding orchestrator
   (src/services/hlsService.js), the HLS routes (src/routes/hlsRoutes.js),
   the upload routes (src/routes/uploadRoutes.js) and the local video route
   (src/routes/videoRoutes.js).

   Modelling conventions: JS strings are lists of characters; JS numbers in
   the claims are within the double safe-integer window, where JS arithmetic
   is exact, so they are embedded as Int; filesystem paths are lists of path
   segments; fallible or absent values are Option. -/

/-- Models JS String.prototype.split with a one-character separator: splits at
every occurrence of the separator, keeps empty pieces, and returns a single
piece (the whole input) when the separator does not occur. -/
def jsSplit (sep : Char) : List Char → List (List Char)
  | [] => [[]]
  | c :: t =>
    if c = sep then [] :: jsSplit sep t
    else
      match jsSplit sep t with
      | [] => [[c]]
      | h :: r => (c :: h) :: r

/-- Boolean test that the first list is an initial run of the second; models
JS String.prototype.startsWith and is also used for path-containment. -/
def startsList {α : Type} [DecidableEq α] : List α → List α → Bool
  | [], _ => true
  | _ :: _, [] => false
  | a :: as, b :: bs => if a = b then startsList as bs else false

/-- Boolean test that the first list is a final run of the second; models
JS String.prototype.endsWith. -/
def endsList {α : Type} [DecidableEq α] (pat s : List α) : Bool :=
  startsList pat.reverse s.reverse

/-- Whitespace recognized at the front of a numeric string by JS parseInt. -/
def isWhite (c : Char) : Bool :=
  c = ' ' || c = '\t' || c = '\n' || c = '\r'

/-- Numeric value of a decimal digit character. -/
def digitValC (c : Char) : Int :=
  ((c.toNat - '0'.toNat : Nat) : Int)

/-- Value of a run of decimal digit characters, most significant first. -/
def digitsVal (ds : List Char) : Int :=
  ds.foldl (fun acc c => acc * 10 + digitValC c) 0

/-- Models JS parseInt(s, 10): skip leading whitespace, read an optional
sign, then take the maximal run of decimal digits; the result is NaN
(here: none) when that run is empty. -/
def jsParseInt (s : List Char) : Option Int :=
  let s1 := s.dropWhile isWhite
  let sgn : Int := if s1.headD ' ' = '-' then -1 else 1
  let s2 := if s1.headD ' ' = '-' ∨ s1.headD ' ' = '+' then s1.tail else s1
  let ds := s2.takeWhile Char.isDigit
  if ds = [] then none else some (sgn * digitsVal ds)

/-- Truthiness of an optional string: JS treats an absent header and an empty
string as falsy, every other string as truthy. -/
def isTruthy : Option (List Char) → Bool
  | none => false
  | some r => !r.isEmpty

/-- Result of the range resolver: inclusive byte offsets and the byte count,
as built at videoStreamService.js lines 124-128 and r2StreamService.js
lines 218-222. -/
structure RangeSpec where
  start : Int
  «end» : Int
  chunkSize : Int
deriving DecidableEq, Repr

/-- Decimal rendering of an integer, as interpolated into JS template
strings. -/
def intChars (n : Int) : List Char :=
  (toString n).toList

/-- Content-Range header value of a 206 response:
bytes start-end/fileSize (videoStreamService.js line 164). -/
def contentRangeOk (s e fs : Int) : List Char :=
  "bytes ".toList ++ intChars s ++ ['-'] ++ intChars e ++ ['/'] ++ intChars fs

/-- Content-Range header value of a 416 response: bytes */fileSize
(videoStreamService.js line 153). -/
def contentRangeUnsat (fs : Int) : List Char :=
  "bytes */".toList ++ intChars fs

/-- The slice of an HTTP response the claims talk about: status code, the
Content-Range header, the Content-Length header, and the number of body
bytes actually written.  Other headers (Accept-Ranges, Content-Type,
caching, Last-Modified, ETag) are elided. -/
structure HttpResponse where
  status : Nat
  contentRange : Option (List Char)
  contentLength : Option Int
  bodyLength : Int
deriving DecidableEq, Repr

namespace VideoStreamService

/-- Embeds VideoStreamService.parseRange (videoStreamService.js lines
110-129).  The JS falsy check on the header and the startsWith guard merge
into the startsList test (an absent or empty header and a header without the
bytes= lead-in all return null).  The source removes the first occurrence of
the text bytes= from the header; since the guard ensures the header begins
with it, that first occurrence is at position 0, so the removal is List.drop
6.  The split on the dash, the parseInt of the first piece, the default of
fileSize - 1 when the second piece is absent or empty (both are JS falsy),
and the combined NaN and bounds check follow the source line by line. -/
def parseRange (range : Option (List Char)) (fileSize : Int) : Option RangeSpec :=
  match range with
  | none => none
  | some r =>
    if startsList "bytes=".toList r = false then none
    else
      let parts := jsSplit '-' (r.drop 6)
      let startVal := jsParseInt (parts.getD 0 [])
      let endTok := parts.getD 1 []
      let endVal := if endTok = [] then some (fileSize - 1) else jsParseInt endTok
      match startVal, endVal with
      | some s, some e =>
        if s ≥ fileSize ∨ e ≥ fileSize ∨ s > e then none
        else some ⟨s, e, (e - s) + 1⟩
      | _, _ => none

/-- Embeds VideoStreamService.streamVideo (videoStreamService.js lines
137-220) after a successful stat of the file, as a function of the file size
and the request Range header.  A truthy Range header is resolved: failure
gives a 416 with Content-Range bytes */size and no body; success gives a 206
whose Content-Range and Content-Length come from the resolved spec and whose
body is the fs.createReadStream slice from start to end inclusive, hence
end - start + 1 bytes (end < fileSize guarantees the file has that many).
Without a truthy header the whole file is served with a 200. -/
def streamVideo (fileSize : Int) (range : Option (List Char)) : HttpResponse :=
  if isTruthy range then
    match parseRange range fileSize with
    | none => ⟨416, some (contentRangeUnsat fileSize), none, 0⟩
    | some rd =>
      ⟨206, some (contentRangeOk rd.start rd.«end» fileSize), some rd.chunkSize,
        (rd.«end» - rd.start) + 1⟩
  else ⟨200, none, some fileSize, fileSize⟩

end VideoStreamService

namespace R2StreamService

/-- Embeds R2StreamService.parseRange (r2StreamService.js lines 204-223),
which is textually identical to the resolver in videoStreamService.js; see
the comment there for the modelling of the JS string operations. -/
def parseRange (range : Option (List Char)) (fileSize : Int) : Option RangeSpec :=
  match range with
  | none => none
  | some r =>
    if startsList "bytes=".toList r = false then none
    else
      let parts := jsSplit '-' (r.drop 6)
      let startVal := jsParseInt (parts.getD 0 [])
      let endTok := parts.getD 1 []
      let endVal := if endTok = [] then some (fileSize - 1) else jsParseInt endTok
      match startVal, endVal with
      | some s, some e =>
        if s ≥ fileSize ∨ e ≥ fileSize ∨ s > e then none
        else some ⟨s, e, (e - s) + 1⟩
      | _, _ => none

end R2StreamService

/-- Removes the first occurrence of a character from a list; models JS
String.prototype.replace with a one-character pattern and empty
replacement, as used on the bitrate strings in hlsService.js line 413. -/
def removeFirst (c : Char) : List Char → List Char
  | [] => []
  | x :: t => if x = c then t else x :: removeFirst c t

/-- One quality tier of hlsService.js (lines 326-330): name, target
resolution, and the video and audio bitrate strings passed to the encoder. -/
structure Quality where
  name : String
  width : Int
  height : Int
  bitrate : String
  audioBitrate : String
deriving DecidableEq, Repr

/-- The default rendition list of HLSService.convertToHLS (hlsService.js
lines 326-330). -/
def defaultQualities : List Quality :=
  [⟨"720p", 1280, 720, "2500k", "128k"⟩,
   ⟨"480p", 854, 480, "1000k", "96k"⟩,
   ⟨"360p", 640, 360, "600k", "64k"⟩]

/-- The BANDWIDTH value computed for one rendition at hlsService.js line 413:
parseInt of the video bitrate string with its first k removed, times 1000.
none stands for JS NaN.  The audio bitrate does not enter the computation. -/
def bandwidthOf (q : Quality) : Option Int :=
  (jsParseInt (removeFirst 'k' q.bitrate.toList)).map (fun n => n * 1000)

/-- Rendering of a JS number into a template string: NaN prints as NaN. -/
def numToString : Option Int → String
  | none => "NaN"
  | some n => toString n

/-- The two lines emitted per rendition by HLSService.createMasterPlaylist
(hlsService.js lines 412-416). -/
def qualityLines (q : Quality) : String :=
  "#EXT-X-STREAM-INF:BANDWIDTH=" ++ numToString (bandwidthOf q) ++
    ",RESOLUTION=" ++ toString q.width ++ "x" ++ toString q.height ++ "\n" ++
    q.name ++ "/playlist.m3u8\n\n"

/-- Embeds HLSService.createMasterPlaylist (hlsService.js lines 409-419):
the fixed header followed by one stream-inf entry per rendition, in input
order.  The outputName parameter is accepted and unused, as in the source. -/
def createMasterPlaylist (qualities : List Quality) (outputName : String) : String :=
  qualities.foldl (fun pl q => pl ++ qualityLines q) "#EXTM3U\n#EXT-X-VERSION:3\n\n"

/-- The BANDWIDTH values of a master playlist, in emission order; a
projection of createMasterPlaylist used to state the bandwidth claims. -/
def masterBandwidths (qualities : List Quality) : List (Option Int) :=
  qualities.map bandwidthOf

/-- Substring test; models JS String.prototype.includes. -/
def listContains (pat : List Char) : List Char → Bool
  | [] => startsList pat []
  | c :: t => startsList pat (c :: t) || listContains pat t

/-- The VOD terminator tag. -/
def endlistTag : List Char :=
  "#EXT-X-ENDLIST".toList

/-- Embeds the media-playlist finalization step of the end handler in
HLSService.convertToHLS (hlsService.js lines 375-378): the playlist file is
read, and the ENDLIST tag plus newline is appended unless the text already
includes the tag. -/
def finalizeMedia (t : List Char) : List Char :=
  if listContains endlistTag t then t else t ++ endlistTag ++ ['\n']

/-- Number of playlist lines that consist exactly of the ENDLIST tag, with
lines delimited by newline characters. -/
def countTagLines (t : List Char) : Nat :=
  (jsSplit '\n' t).count endlistTag

/-- A terminal encoder event of one rendition inside a convert job: the
rendition name paired with none for the end event or some message for the
error event (hlsService.js lines 371-397). -/
abbrev REvent := String × Option String

/-- The mutable state of one convert job (hlsService.js lines 332-334 and
the enclosing Promise): the completedQualities counter, the accumulated
per-rendition results (here: the rendition names recorded in the results
object, in recording order), and the settlement slot of the Promise, which
in JS is write-once: none while pending, and the first resolve or reject
fixes it. -/
structure JobState where
  completedQualities : Nat
  results : List String
  settled : Option (Except String (List String))

/-- One step of the convert-job join logic (hlsService.js lines 371-397).
An end event finalizes the media playlist, records the rendition result,
increments the counter, and resolves the Promise when the counter reaches
the rendition total; a resolve or reject against an already settled Promise
is a no-op, which the match on the settlement slot encodes.  An error event
rejects the Promise with the message of that rendition. -/
def stepJob (totalQualities : Nat) (st : JobState) (ev : REvent) : JobState :=
  match ev.2 with
  | none =>
    let results := st.results ++ [ev.1]
    let completed := st.completedQualities + 1
    { completedQualities := completed
      results := results
      settled :=
        if completed = totalQualities then
          match st.settled with
          | none => some (Except.ok results)
          | some s => some s
        else st.settled }
  | some e =>
    { st with
      settled :=
        match st.settled with
        | none => some (Except.error e)
        | some s => some s }

/-- A whole convert job (HLSService.convertToHLS, hlsService.js lines
332-398) abstracted over the encoder: the renditions run concurrently and
their terminal events arrive in an arbitrary interleaving, given here as the
event list; the rendition total is the number of launched renditions, one
event each.  The master playlist write and the encoder invocations
themselves are outside the join logic the claim is about. -/
def runConvert (events : List REvent) : JobState :=
  events.foldl (stepJob events.length) ⟨0, [], none⟩

/-- The slice of an upload or conversion HTTP response the claims talk
about: status, response message, and the hls field (the rendition names
reported, none when the hls field is null). -/
structure UploadResponse where
  status : Nat
  message : String
  hls : Option (List String)
deriving DecidableEq, Repr

/-- Embeds the convertToHLS branch of the local upload route
(uploadRoutes.js lines 109-135) as a function of whether conversion was
requested and of the outcome the awaited convertToHLS job settles with.  The
catch block only logs a conversion failure and continues without HLS, so the
route always answers 200 with the fixed success message; the hls field
carries the rendition names on success and is null otherwise. -/
def uploadLocalRoute (convertRequested : Bool)
    (outcome : Except String (List String)) : UploadResponse :=
  let hlsResult : Option (List String) :=
    if convertRequested then
      match outcome with
      | Except.ok qs => some qs
      | Except.error _ => none
    else none
  ⟨200, "File uploaded successfully", hlsResult⟩

/-- Embeds the POST convert route (hlsRoutes.js lines 241-275): the route
answers with the processing acknowledgment before the background job runs,
and the then and catch continuations only log, so the response is the same
for every job outcome. -/
def convertRouteAck (outcome : Except String (List String)) : UploadResponse :=
  ⟨200, "HLS conversion started", none⟩

/-- A filesystem path as a list of path segments. -/
abbrev PathSegs := List (List Char)

/-- One normalization step of Node path resolution on an absolute path: an
empty or single-dot segment is dropped, a double-dot segment pops the last
segment (clamping at the root), and any other segment is appended. -/
def normSeg (acc : PathSegs) (seg : List Char) : PathSegs :=
  if seg = [] ∨ seg = ['.'] then acc
  else if seg = ['.', '.'] then acc.dropLast
  else acc ++ [seg]

/-- Models Node path.join of an absolute base with relative segments: the
concatenation is normalized left to right. -/
def pathJoinNorm (base : PathSegs) (rel : PathSegs) : PathSegs :=
  (base ++ rel).foldl normSeg []

/-- Drops trailing occurrences of a character. -/
def dropTrailing (c : Char) (s : List Char) : List Char :=
  ((s.reverse).dropWhile (fun x => x == c)).reverse

/-- Models Node path.basename on POSIX paths: trailing slashes are stripped
and the piece after the last remaining slash is returned. -/
def jsPathBasename (s : List Char) : List Char :=
  (jsSplit '/' (dropTrailing '/' s)).getLastD []

/-- The suffix of a list starting at its last dot, or none when it has no
dot. -/
def lastDotSuffix : List Char → Option (List Char)
  | [] => none
  | c :: t =>
    match lastDotSuffix t with
    | some s => some s
    | none => if c = '.' then some (c :: t) else none

/-- Models Node path.extname on POSIX paths: the basename suffix from its
last dot, except that a leading dot (a dotfile), a dotless basename, and the
double-dot basename have no extension. -/
def jsExtname (p : List Char) : List Char :=
  let b := jsPathBasename p
  if b = ['.', '.'] then []
  else
    match lastDotSuffix b with
    | none => []
    | some s => if s.length = b.length then [] else s

/-- Lowercasing of a string, as applied to the extension before the
allow-list test. -/
def toLowerList (s : List Char) : List Char :=
  s.map Char.toLower

/-- The video extension allow-list of VideoStreamService.isValidVideoFile
(videoStreamService.js lines 268-272). -/
def allowedVideoExts : List (List Char) :=
  [".mp4".toList, ".webm".toList, ".ogg".toList, ".avi".toList,
   ".mov".toList, ".mkv".toList, ".m4v".toList]

/-- Embeds VideoStreamService.isValidVideoFile applied to a resolved path,
given here by its segments: the lowercased extension of the final path
component must be on the allow-list. -/
def isValidVideoSeg (p : PathSegs) : Bool :=
  allowedVideoExts.contains (toLowerList (jsExtname (p.getLastD [])))

/-- Embeds the local video streaming route (videoRoutes.js lines 19-44) up
to the file it opens: the request filename is reduced to its basename, the
basename is joined to the videos base directory, the joined path must pass
the video-extension test and then exist, and only then is it opened for
streaming.  none models the 400 and 404 answers, where no file is opened;
some p is the path handed to streamVideo. -/
def localVideoRoute (base : PathSegs) (filename : List Char)
    (fsHas : PathSegs → Bool) : Option PathSegs :=
  let c := jsPathBasename filename
  let p := pathJoinNorm base [c]
  if isValidVideoSeg p = false then none
  else if fsHas p = false then none
  else some p

/-- Embeds the HLS segment route (hlsRoutes.js lines 86-132) composed with
HLSService.getSegment (hlsService.js lines 442-450) up to the file it reads:
the segment name must end in .ts, the stream must exist (streamOK carries
the outcome of that check), and then the template path
stream/quality/segment is joined to the HLS base directory with no
sanitization and read.  none models the 400 and 404 answers; some p the path
read and served. -/
def hlsSegmentRequestPath (hlsBase : PathSegs) (streamOK : Bool)
    (stream quality segment : List Char) : Option PathSegs :=
  if endsList (".ts".toList) segment = false then none
  else if streamOK = false then none
  else some (pathJoinNorm hlsBase
    (jsSplit '/' (stream ++ ['/'] ++ quality ++ ['/'] ++ segment)))

/-- Embeds HLSService.streamExists (hlsService.js lines 572-576): a stream
exists exactly when the master.m3u8 file under its directory is present.
The filesystem is the list of paths of the files present. -/
def streamExists (fs : List PathSegs) (base : PathSegs) (name : List Char) : Bool :=
  decide ((base ++ [name, "master.m3u8".toList]) ∈ fs)

/-- Embeds HLSService.deleteStream (hlsService.js lines 554-565): the
recursive rmSync removes every file under the stream directory and touches
nothing else. -/
def deleteStream (fs : List PathSegs) (base : PathSegs) (name : List Char) :
    List PathSegs :=
  fs.filter (fun p => !(startsList (base ++ [name]) p))

/-- Embeds the DELETE stream route (hlsRoutes.js lines 209-235): a name
whose stream does not exist answers 404 and performs no deletion; otherwise
the stream is deleted and the route answers 200. -/
def deleteRoute (fs : List PathSegs) (base : PathSegs) (name : List Char) :
    Nat × List PathSegs :=
  if streamExists fs base name = true then (200, deleteStream fs base name)
  else (404, fs)

theorem startsList_append {α : Type} [DecidableEq α] (l r : List α) :
    startsList l (l ++ r) = true := by
  induction l with
  | nil => rfl
  | cons a as ih => simp [startsList, ih]

theorem jsSplit_not_mem (sep : Char) (l : List Char) (h : sep ∉ l) :
    jsSplit sep l = [l] := by
  induction l with
  | nil => rfl
  | cons c t ih =>
    have hc : ¬ c = sep := by
      intro e; exact h (by simp [e])
    have ht : sep ∉ t := fun m => h (List.mem_cons_of_mem _ m)
    simp [jsSplit, hc, ih ht]

theorem jsSplit_append (sep : Char) (a b : List Char) (h : sep ∉ a) :
    jsSplit sep (a ++ sep :: b) = a :: jsSplit sep b := by
  induction a with
  | nil => simp [jsSplit]
  | cons c t ih =>
    have hc : ¬ c = sep := by
      intro e; exact h (by simp [e])
    have ht : sep ∉ t := fun m => h (List.mem_cons_of_mem _ m)
    simp [jsSplit, hc, ih ht]

theorem drop_bytes_len (x : List Char) : ("bytes=".toList ++ x).drop 6 = x := by
  have h : ("bytes=".toList).length = 6 := rfl
  rw [← h, List.drop_left]

theorem parseRange_eval (a b : List Char) (fs : Int) (ha : '-' ∉ a) (hb : '-' ∉ b) :
    VideoStreamService.parseRange (some ("bytes=".toList ++ (a ++ '-' :: b))) fs =
      (match jsParseInt a, (if b = [] then some (fs - 1) else jsParseInt b) with
       | some s, some e =>
         if s ≥ fs ∨ e ≥ fs ∨ s > e then none else some ⟨s, e, (e - s) + 1⟩
       | _, _ => none) := by
  have h1 : startsList "bytes=".toList ("bytes=".toList ++ (a ++ '-' :: b)) = true :=
    startsList_append _ _
  have h2 : ("bytes=".toList ++ (a ++ '-' :: b)).drop 6 = a ++ '-' :: b :=
    drop_bytes_len _
  have h3 : jsSplit '-' (a ++ '-' :: b) = a :: jsSplit '-' b := jsSplit_append '-' a b ha
  have h4 : jsSplit '-' b = [b] := jsSplit_not_mem '-' b hb
  simp only [VideoStreamService.parseRange, h1, h2, h3, h4, Bool.true_eq_false,
    if_false, List.getD_cons_zero, List.getD_cons_succ]

/-- C10: the resolver of the remote backend and the resolver of the local
backend are extensionally equal: on every header and total size they return
the same rejection or the same RangeSpec, so both backends resolve byte
ranges identically. -/
theorem parseRange_backends_agree :
    ∀ (range : Option (List Char)) (fileSize : Int),
      R2StreamService.parseRange range fileSize =
        VideoStreamService.parseRange range fileSize :=
  fun _ _ => rfl

theorem isWhite_false_of_digit {c : Char} (h : c.isDigit = true) : isWhite c = false := by
  by_cases h1 : c = ' '
  · subst h1; exact absurd h (by decide)
  by_cases h2 : c = '\t'
  · subst h2; exact absurd h (by decide)
  by_cases h3 : c = '\n'
  · subst h3; exact absurd h (by decide)
  by_cases h4 : c = '\r'
  · subst h4; exact absurd h (by decide)
  simp [isWhite, h1, h2, h3, h4]

theorem ne_sign_of_digit {c : Char} (h : c.isDigit = true) : c ≠ '-' ∧ c ≠ '+' := by
  constructor <;> intro e <;> subst e <;> exact absurd h (by decide)

theorem takeWhile_all (p : Char → Bool) (l : List Char) (h : ∀ c ∈ l, p c = true) :
    l.takeWhile p = l := by
  induction l with
  | nil => rfl
  | cons c t ih =>
    have hc : p c = true := h c (by simp)
    simp [List.takeWhile_cons, hc, ih (fun d hd => h d (by simp [hd]))]

theorem jsParseInt_digits (ds : List Char) (hne : ds ≠ [])
    (hd : ∀ c ∈ ds, c.isDigit = true) : jsParseInt ds = some (digitsVal ds) := by
  obtain ⟨c, t, rfl⟩ := List.exists_cons_of_ne_nil hne
  have hc : c.isDigit = true := hd c (by simp)
  have hw : isWhite c = false := isWhite_false_of_digit hc
  have hs := ne_sign_of_digit hc
  simp [jsParseInt, List.dropWhile_cons, hw, hs.1, hs.2,
    takeWhile_all Char.isDigit (c :: t) hd]

theorem parseRange_eval2 (a b : List Char) (fs s e : Int)
    (ha : '-' ∉ a) (hb : '-' ∉ b) (hbne : b ≠ [])
    (hpa : jsParseInt a = some s) (hpb : jsParseInt b = some e) :
    VideoStreamService.parseRange (some ("bytes=".toList ++ (a ++ '-' :: b))) fs =
      if s ≥ fs ∨ e ≥ fs ∨ s > e then none else some ⟨s, e, (e - s) + 1⟩ := by
  have hp := parseRange_eval a b fs ha hb
  rw [if_neg hbne, hpa, hpb] at hp
  exact hp.trans rfl

/-- C1: for every Range header of the form bytes=start-end whose start and
end fields parse to s and e with 0 <= s <= e < totalSize, the resolver
returns the RangeSpec with those offsets and chunkSize e - s + 1, and the
server answers 206 with Content-Range bytes s-e/totalSize, Content-Length
e - s + 1, and a body of exactly e - s + 1 bytes. -/
theorem videoStream_valid_range_206 (a b : List Char) (fs s e : Int)
    (ha : '-' ∉ a) (hb : '-' ∉ b) (hbne : b ≠ [])
    (hpa : jsParseInt a = some s) (hpb : jsParseInt b = some e)
    (hse : s ≤ e) (hef : e < fs) :
    VideoStreamService.parseRange (some ("bytes=".toList ++ (a ++ '-' :: b))) fs =
      some ⟨s, e, (e - s) + 1⟩ ∧
    VideoStreamService.streamVideo fs (some ("bytes=".toList ++ (a ++ '-' :: b))) =
      ⟨206, some (contentRangeOk s e fs), some ((e - s) + 1), (e - s) + 1⟩ := by
  have hcond : ¬(s ≥ fs ∨ e ≥ fs ∨ s > e) := by
    push_neg
    exact ⟨lt_of_le_of_lt hse hef, hef, hse⟩
  have hp := parseRange_eval2 a b fs s e ha hb hbne hpa hpb
  rw [if_neg hcond] at hp
  refine ⟨hp, ?_⟩
  unfold VideoStreamService.streamVideo
  rw [hp]
  rfl

/-- Witness for C1 at the spec example: total size 1000 and header
bytes=0-499 give the RangeSpec (0, 499, 500) and a 206 answer with
Content-Range bytes 0-499/1000 and 500 body bytes. -/
theorem videoStream_valid_range_206_witness :
    VideoStreamService.parseRange
      (some ("bytes=".toList ++ ("0".toList ++ '-' :: "499".toList))) 1000 =
      some ⟨0, 499, 500⟩ ∧
    VideoStreamService.streamVideo 1000
      (some ("bytes=".toList ++ ("0".toList ++ '-' :: "499".toList))) =
      ⟨206, some (contentRangeOk 0 499 1000), some 500, 500⟩ :=
  videoStream_valid_range_206 ("0".toList) ("499".toList) 1000 0 499
    (by decide) (by decide) (by decide) (by decide) (by decide)
    (by decide) (by decide)

/-- C3: a header bytes=start-end whose start field parses as NaN, or whose
present end field parses as NaN, or whose start is at least the total size,
or whose end is at least the total size, or whose start exceeds its end, is
rejected by the resolver, and the server answers 416 with Content-Range
bytes */size and an empty body. -/
theorem videoStream_invalid_range_416 (a b : List Char) (fs : Int)
    (ha : '-' ∉ a) (hb : '-' ∉ b)
    (hbad : jsParseInt a = none
      ∨ (b ≠ [] ∧ jsParseInt b = none)
      ∨ (∃ s, jsParseInt a = some s ∧ s ≥ fs)
      ∨ (∃ e, b ≠ [] ∧ jsParseInt b = some e ∧ e ≥ fs)
      ∨ (∃ s e, jsParseInt a = some s ∧ b ≠ [] ∧ jsParseInt b = some e ∧ s > e)) :
    VideoStreamService.parseRange (some ("bytes=".toList ++ (a ++ '-' :: b))) fs =
      none ∧
    VideoStreamService.streamVideo fs (some ("bytes=".toList ++ (a ++ '-' :: b))) =
      ⟨416, some (contentRangeUnsat fs), none, 0⟩ := by
  have hp := parseRange_eval a b fs ha hb
  have hnone : VideoStreamService.parseRange
      (some ("bytes=".toList ++ (a ++ '-' :: b))) fs = none := by
    rcases hbad with h0 | ⟨hbne, h0⟩ | ⟨s, hpa, hsf⟩ | ⟨e, hbne, hpb, hef⟩ |
      ⟨s, e, hpa, hbne, hpb, hse⟩
    · rw [h0] at hp
      refine hp.trans ?_
      cases hX : (if b = [] then some (fs - 1) else jsParseInt b) <;> rfl
    · rw [if_neg hbne, h0] at hp
      refine hp.trans ?_
      cases hX : jsParseInt a <;> rfl
    · rw [hpa] at hp
      refine hp.trans ?_
      cases hX : (if b = [] then some (fs - 1) else jsParseInt b) with
      | none => rfl
      | some v =>
        show (if s ≥ fs ∨ v ≥ fs ∨ s > v then none
              else some (⟨s, v, (v - s) + 1⟩ : RangeSpec)) = none
        rw [if_pos (Or.inl hsf)]
    · rw [if_neg hbne, hpb] at hp
      refine hp.trans ?_
      cases hX : jsParseInt a with
      | none => rfl
      | some s =>
        show (if s ≥ fs ∨ e ≥ fs ∨ s > e then none
              else some (⟨s, e, (e - s) + 1⟩ : RangeSpec)) = none
        rw [if_pos (Or.inr (Or.inl hef))]
    · rw [hpa, if_neg hbne, hpb] at hp
      refine hp.trans ?_
      show (if s ≥ fs ∨ e ≥ fs ∨ s > e then none
            else some (⟨s, e, (e - s) + 1⟩ : RangeSpec)) = none
      rw [if_pos (Or.inr (Or.inr hse))]
  refine ⟨hnone, ?_⟩
  unfold VideoStreamService.streamVideo
  rw [hnone]
  rfl

/-- Witness for C3 at the spec example: total size 1000 and header
bytes=999-2000 are Invalid (the end exceeds the size) and yield the 416
answer with Content-Range bytes */1000 and no body. -/
theorem videoStream_invalid_range_416_witness :
    VideoStreamService.parseRange
      (some ("bytes=".toList ++ ("999".toList ++ '-' :: "2000".toList))) 1000 =
      none ∧
    VideoStreamService.streamVideo 1000
      (some ("bytes=".toList ++ ("999".toList ++ '-' :: "2000".toList))) =
      ⟨416, some (contentRangeUnsat 1000), none, 0⟩ :=
  videoStream_invalid_range_416 ("999".toList) ("2000".toList) 1000
    (by decide) (by decide)
    (Or.inr (Or.inr (Or.inr (Or.inl ⟨2000, by decide, by decide, by decide⟩))))

theorem parseRange_dash_lead (d : List Char) (fs : Int) :
    VideoStreamService.parseRange (some ("bytes=".toList ++ ('-' :: d))) fs = none := by
  have h1 : startsList "bytes=".toList ("bytes=".toList ++ ('-' :: d)) = true :=
    startsList_append _ _
  have h2 : ("bytes=".toList ++ ('-' :: d)).drop 6 = '-' :: d := drop_bytes_len _
  have h3 : jsSplit '-' ('-' :: d) = [] :: jsSplit '-' d := by
    simp [jsSplit]
  simp only [VideoStreamService.parseRange, h1, h2, h3, Bool.true_eq_false,
    if_false, List.getD_cons_zero, List.getD_cons_succ]
  cases hX : (if (jsSplit '-' d).getD 0 [] = [] then some (fs - 1)
              else jsParseInt ((jsSplit '-' d).getD 0 [])) <;> rfl

/-- C4 counterexample: the multi-range header bytes=0-99,200-299 with total
size 1000 is not classified Invalid: the resolver returns the RangeSpec
(0, 99, 100), because JS parseInt reads the digits of the second field up to
the comma, and the server serves 206 content with 100 body bytes; this
refutes the claim that every comma-separated header is rejected with 416. -/
theorem parseRange_multirange_counterexample :
    VideoStreamService.parseRange (some ("bytes=0-99,200-299".toList)) 1000 =
      some ⟨0, 99, 100⟩ ∧
    VideoStreamService.streamVideo 1000 (some ("bytes=0-99,200-299".toList)) =
      ⟨206, some (contentRangeOk 0 99 1000), some 100, 100⟩ :=
  ⟨rfl, rfl⟩

/-- C4 as amended: every suffix-range header bytes=-N is classified Invalid
(the first dash-separated field is empty and parses as NaN), for any tail N
whatsoever; multi-range headers are not rejected as such: the header
bytes=0-99,200-299 at size 1000 resolves to the single range (0, 99, 100),
whose second bound is the digit run before the first comma, and is served
as 206 content. -/
theorem parseRange_suffix_rejected_multirange_served :
    (∀ (d : List Char) (fs : Int),
      VideoStreamService.parseRange (some ("bytes=-".toList ++ d)) fs = none) ∧
    VideoStreamService.parseRange (some ("bytes=0-99,200-299".toList)) 1000 =
      some ⟨0, 99, 100⟩ ∧
    VideoStreamService.streamVideo 1000 (some ("bytes=0-99,200-299".toList)) =
      ⟨206, some (contentRangeOk 0 99 1000), some 100, 100⟩ :=
  ⟨fun d fs => parseRange_dash_lead d fs, rfl, rfl⟩

theorem removeFirst_append (c : Char) (d : List Char) (h : c ∉ d) :
    removeFirst c (d ++ [c]) = d := by
  induction d with
  | nil => simp [removeFirst]
  | cons x t ih =>
    have hx : ¬ x = c := by
      intro e; exact h (by simp [e])
    simp [removeFirst, hx, ih (fun m => h (List.mem_cons_of_mem _ m))]

/-- C2 counterexample: for the three default renditions 720p, 480p and 360p
with video bitrates 2500k, 1000k, 600k and audio bitrates 128k, 96k, 64k,
the BANDWIDTH values emitted by the master playlist builder are 2500000,
1000000 and 600000 — the video bitrate alone — and not the claimed sums
2628000, 1096000 and 664000 of video and audio bitrates; the emitted text
contains BANDWIDTH=2500000 and does not contain 2628000 anywhere. -/
theorem masterPlaylist_bandwidth_counterexample :
    masterBandwidths defaultQualities =
      [some 2500000, some 1000000, some 600000] ∧
    masterBandwidths defaultQualities ≠
      [some 2628000, some 1096000, some 664000] ∧
    listContains ("BANDWIDTH=2500000".toList)
      (createMasterPlaylist defaultQualities "video").toList = true ∧
    listContains ("2628000".toList)
      (createMasterPlaylist defaultQualities "video").toList = false :=
  ⟨by decide, by decide, by decide, by decide⟩

/-- C2 as amended: the BANDWIDTH attribute written for a rendition equals
its video bitrate in bits per second alone — 1000 times the digit run of
the bitrate string — with the audio bitrate not included; for the three
default renditions the emitted values are 2500000, 1000000 and 600000 in
input order, as the full emitted playlist text shows. -/
theorem masterPlaylist_bandwidth_video_only :
    (∀ (d : List Char) (nm : String) (w ht : Int) (ab : String),
      d ≠ [] → (∀ c ∈ d, c.isDigit = true) →
      bandwidthOf ⟨nm, w, ht, String.mk (d ++ ['k']), ab⟩ =
        some (digitsVal d * 1000)) ∧
    masterBandwidths defaultQualities =
      [some 2500000, some 1000000, some 600000] ∧
    createMasterPlaylist defaultQualities "video" =
      "#EXTM3U\n#EXT-X-VERSION:3\n\n#EXT-X-STREAM-INF:BANDWIDTH=2500000,RESOLUTION=1280x720\n720p/playlist.m3u8\n\n#EXT-X-STREAM-INF:BANDWIDTH=1000000,RESOLUTION=854x480\n480p/playlist.m3u8\n\n#EXT-X-STREAM-INF:BANDWIDTH=600000,RESOLUTION=640x360\n360p/playlist.m3u8\n\n" := by
  refine ⟨?_, by decide, rfl⟩
  intro d nm w ht ab hne hd
  have hk : 'k' ∉ d := by
    intro hm
    have := hd 'k' hm
    exact absurd this (by decide)
  unfold bandwidthOf
  have hlist : (String.mk (d ++ ['k'])).toList = d ++ ['k'] := rfl
  rw [hlist, removeFirst_append 'k' d hk, jsParseInt_digits d hne hd]
  rfl

/-- Witness for the amended C2: the 720p rendition with bitrate string 2500k
gets BANDWIDTH 2500000, and the default rendition list emits 2500000,
1000000, 600000 in order. -/
theorem masterPlaylist_bandwidth_video_only_witness :
    bandwidthOf ⟨"720p", 1280, 720, String.mk ("2500".toList ++ ['k']), "128k"⟩ =
      some (digitsVal ("2500".toList) * 1000) ∧
    masterBandwidths defaultQualities =
      [some 2500000, some 1000000, some 600000] := by
  obtain ⟨h1, h2, h3⟩ := masterPlaylist_bandwidth_video_only
  exact ⟨h1 ("2500".toList) "720p" 1280 720 "128k" (by decide) (by decide), h2⟩

theorem starts_listContains (pat s : List Char) (h : startsList pat s = true) :
    listContains pat s = true := by
  cases s with
  | nil => exact h
  | cons c t => simp [listContains, h]

theorem listContains_middle (pat t r : List Char) :
    listContains pat (t ++ (pat ++ r)) = true := by
  induction t with
  | nil => exact starts_listContains pat (pat ++ r) (startsList_append pat r)
  | cons c t2 ih => simp [listContains, ih]

/-- C6 counterexample: a playlist text consisting of two ENDLIST lines
already includes the tag, so finalizeMedia leaves it unchanged; applying
finalizeMedia twice therefore yields a playlist with two ENDLIST lines, not
exactly one, refuting the universally quantified exactly-one-line claim. -/
theorem finalizeMedia_two_endlist_counterexample :
    finalizeMedia (finalizeMedia ("#EXT-X-ENDLIST\n#EXT-X-ENDLIST\n".toList)) =
      "#EXT-X-ENDLIST\n#EXT-X-ENDLIST\n".toList ∧
    countTagLines
      (finalizeMedia (finalizeMedia ("#EXT-X-ENDLIST\n#EXT-X-ENDLIST\n".toList))) =
      2 :=
  ⟨rfl, rfl⟩

/-- C6 as amended: finalizeMedia is idempotent — applying it twice yields
the same text as applying it once; a playlist already including the tag as a
substring is returned unchanged; and a playlist not including it has the
ENDLIST tag and a newline appended exactly once. -/
theorem finalizeMedia_idempotent :
    ∀ t : List Char,
      finalizeMedia (finalizeMedia t) = finalizeMedia t ∧
      (listContains endlistTag t = true → finalizeMedia t = t) ∧
      (listContains endlistTag t = false →
        finalizeMedia t = t ++ endlistTag ++ ['\n']) := by
  intro t
  have hunch : listContains endlistTag t = true → finalizeMedia t = t := by
    intro h
    unfold finalizeMedia
    rw [if_pos h]
  have happ : listContains endlistTag t = false →
      finalizeMedia t = t ++ endlistTag ++ ['\n'] := by
    intro h
    unfold finalizeMedia
    rw [if_neg (by simp [h])]
  refine ⟨?_, hunch, happ⟩
  cases hc : listContains endlistTag t with
  | true =>
    rw [hunch hc]
    exact hunch hc
  | false =>
    rw [happ hc]
    have hc2 : listContains endlistTag (t ++ endlistTag ++ ['\n']) = true := by
      have hm := listContains_middle endlistTag t ['\n']
      rwa [← List.append_assoc] at hm
    unfold finalizeMedia
    rw [if_pos hc2]

/-- Witness for the amended C6: an encoder playlist without the tag gains
exactly one appended ENDLIST line and a second application changes nothing,
while a playlist that is just the tag line is returned unchanged. -/
theorem finalizeMedia_idempotent_witness :
    finalizeMedia (finalizeMedia ("#EXTINF:10,\nsegment_000.ts\n".toList)) =
      finalizeMedia ("#EXTINF:10,\nsegment_000.ts\n".toList) ∧
    finalizeMedia ("#EXTINF:10,\nsegment_000.ts\n".toList) =
      "#EXTINF:10,\nsegment_000.ts\n".toList ++ endlistTag ++ ['\n'] ∧
    finalizeMedia ("#EXT-X-ENDLIST\n".toList) = "#EXT-X-ENDLIST\n".toList := by
  obtain ⟨h1, h2, h3⟩ := finalizeMedia_idempotent ("#EXTINF:10,\nsegment_000.ts\n".toList)
  obtain ⟨g1, g2, g3⟩ := finalizeMedia_idempotent ("#EXT-X-ENDLIST\n".toList)
  exact ⟨h1, h3 (by decide), g2 (by decide)⟩

theorem foldl_stepJob_allNone_lt (t : Nat) :
    ∀ (evs : List REvent) (c : Nat) (r : List String),
      (∀ ev ∈ evs, ev.2 = none) → c + evs.length < t →
      evs.foldl (stepJob t) ⟨c, r, none⟩ =
        ⟨c + evs.length, r ++ evs.map Prod.fst, none⟩ := by
  intro evs
  induction evs with
  | nil =>
    intro c r h hlt
    simp
  | cons ev rest ih =>
    intro c r h hlt
    obtain ⟨q, o⟩ := ev
    have ho : o = none := h (q, o) (by simp)
    subst ho
    have hne : ¬ (c + 1 = t) := by
      simp only [List.length_cons] at hlt
      omega
    have hstep : stepJob t ⟨c, r, none⟩ (q, none) = ⟨c + 1, r ++ [q], none⟩ := by
      simp [stepJob, hne]
    rw [List.foldl_cons, hstep,
      ih (c + 1) (r ++ [q]) (fun ev hm => h ev (by simp [hm]))
        (by simp only [List.length_cons] at hlt ⊢; omega),
      List.append_assoc, Nat.add_right_comm c 1 rest.length]
    rfl

theorem foldl_stepJob_allNone_eq (t : Nat) :
    ∀ (evs : List REvent) (c : Nat) (r : List String),
      evs ≠ [] → (∀ ev ∈ evs, ev.2 = none) → c + evs.length = t →
      evs.foldl (stepJob t) ⟨c, r, none⟩ =
        ⟨t, r ++ evs.map Prod.fst, some (Except.ok (r ++ evs.map Prod.fst))⟩ := by
  intro evs
  induction evs with
  | nil =>
    intro c r hne h heq
    exact absurd rfl hne
  | cons ev rest ih =>
    intro c r hne h heq
    obtain ⟨q, o⟩ := ev
    have ho : o = none := h (q, o) (by simp)
    subst ho
    by_cases hrne : rest = []
    · subst hrne
      have ht : c + 1 = t := by
        simpa using heq
      have hstep : stepJob t ⟨c, r, none⟩ (q, none) =
          ⟨c + 1, r ++ [q], some (Except.ok (r ++ [q]))⟩ := by
        simp [stepJob, ht]
      rw [List.foldl_cons, hstep]
      simp [ht]
    · have hlen : 0 < rest.length := List.length_pos.mpr hrne
      have hne1 : ¬ (c + 1 = t) := by
        simp only [List.length_cons] at heq
        omega
      have hstep : stepJob t ⟨c, r, none⟩ (q, none) = ⟨c + 1, r ++ [q], none⟩ := by
        simp [stepJob, hne1]
      rw [List.foldl_cons, hstep,
        ih (c + 1) (r ++ [q]) hrne (fun ev hm => h ev (by simp [hm]))
          (by simp only [List.length_cons] at heq ⊢; omega),
        List.append_assoc]
      rfl

theorem foldl_stepJob_settled (t : Nat) :
    ∀ (evs : List REvent) (c : Nat) (r : List String)
      (s : Except String (List String)),
      evs.foldl (stepJob t) ⟨c, r, some s⟩ =
        ⟨c + (evs.filter (fun ev => ev.2.isNone)).length,
         r ++ (evs.filter (fun ev => ev.2.isNone)).map Prod.fst, some s⟩ := by
  intro evs
  induction evs with
  | nil =>
    intro c r s
    simp
  | cons ev rest ih =>
    intro c r s
    obtain ⟨q, o⟩ := ev
    cases o with
    | none =>
      have hstep : stepJob t ⟨c, r, some s⟩ (q, none) = ⟨c + 1, r ++ [q], some s⟩ := by
        simp [stepJob]
      rw [List.foldl_cons, hstep, ih (c + 1) (r ++ [q]) s]
      simp [JobState.mk.injEq]
      omega
    | some e =>
      have hstep : stepJob t ⟨c, r, some s⟩ (q, some e) = ⟨c, r, some s⟩ := by
        simp [stepJob]
      rw [List.foldl_cons, hstep, ih c r s]
      simp [JobState.mk.injEq]

theorem exists_first_error (evs : List REvent)
    (h : ¬ ∀ ev ∈ evs, ev.2 = none) :
    ∃ pre q e post, evs = pre ++ (q, some e) :: post ∧
      ∀ ev ∈ pre, ev.2 = none := by
  induction evs with
  | nil => exact absurd (by simp) h
  | cons ev rest ih =>
    obtain ⟨q, o⟩ := ev
    cases o with
    | some e => exact ⟨[], q, e, rest, rfl, by simp⟩
    | none =>
      have hrest : ¬ ∀ ev ∈ rest, ev.2 = none := by
        intro hall
        refine h ?_
        intro ev hm
        rcases List.mem_cons.mp hm with hh | ht2
        · simp [hh]
        · exact hall ev ht2
      obtain ⟨pre, q2, e2, post, heq, hpre⟩ := ih hrest
      refine ⟨(q, none) :: pre, q2, e2, post, by rw [heq]; rfl, ?_⟩
      intro ev hm
      rcases List.mem_cons.mp hm with hh | ht2
      · simp [hh]
      · exact hpre ev ht2

theorem runConvert_first_error (pre : List REvent) (q e : String)
    (post : List REvent) (hpre : ∀ ev ∈ pre, ev.2 = none) :
    (runConvert (pre ++ (q, some e) :: post)).settled = some (Except.error e) ∧
    ∀ ev ∈ pre, ev.1 ∈ (runConvert (pre ++ (q, some e) :: post)).results := by
  have hlt : 0 + pre.length < (pre ++ (q, some e) :: post).length := by
    simp only [List.length_append, List.length_cons]
    omega
  unfold runConvert
  rw [List.foldl_append,
    foldl_stepJob_allNone_lt (pre ++ (q, some e) :: post).length pre 0 [] hpre hlt,
    List.foldl_cons]
  have hstep : stepJob (pre ++ (q, some e) :: post).length
      ⟨0 + pre.length, [] ++ pre.map Prod.fst, none⟩ (q, some e) =
      ⟨0 + pre.length, [] ++ pre.map Prod.fst, some (Except.error e)⟩ := by
    simp [stepJob]
  rw [hstep, foldl_stepJob_settled]
  refine ⟨rfl, ?_⟩
  intro ev hm
  simp only [List.nil_append, List.append_assoc]
  exact List.mem_append_left _ (List.mem_map.mpr ⟨ev, hm, rfl⟩)

/-- C5: a convert job over its launched renditions, with the terminal
encoder events arriving in any order, resolves successfully exactly when
every rendition ends without error (and then reports all rendition results);
the first failing rendition rejects the whole job with that rendition
message, regardless of how many siblings already completed, and the results
recorded for renditions completed before the failure remain recorded — no
rollback happens. -/
theorem convert_join_semantics (events : List REvent) :
    (events ≠ [] →
      ((runConvert events).settled = some (Except.ok (events.map Prod.fst)) ↔
        ∀ ev ∈ events, ev.2 = none)) ∧
    (∀ (pre : List REvent) (q e : String) (post : List REvent),
      events = pre ++ (q, some e) :: post → (∀ ev ∈ pre, ev.2 = none) →
      (runConvert events).settled = some (Except.error e) ∧
      ∀ ev ∈ pre, ev.1 ∈ (runConvert events).results) := by
  constructor
  · intro hne
    constructor
    · intro hok
      by_contra hnall
      obtain ⟨pre, q, e, post, heq, hpre⟩ := exists_first_error events hnall
      rw [heq] at hok
      rw [(runConvert_first_error pre q e post hpre).1] at hok
      simp at hok
    · intro hall
      have hrun := foldl_stepJob_allNone_eq events.length events 0 [] hne hall
        (by omega)
      unfold runConvert
      rw [hrun]
      simp
  · intro pre q e post heq hpre
    subst heq
    exact runConvert_first_error pre q e post hpre

/-- Witness for C5: with three renditions where 480p fails after 720p has
completed, the job rejects with the 480p message and the 720p result is
still recorded; with all three completing, the job resolves with all three
results. -/
theorem convert_join_semantics_witness :
    (runConvert [("720p", none), ("480p", some "encode failed"), ("360p", none)]).settled =
      some (Except.error ("encode failed")) ∧
    "720p" ∈ (runConvert [("720p", none), ("480p", some "encode failed"), ("360p", none)]).results ∧
    (runConvert [("720p", none), ("480p", none), ("360p", none)]).settled =
      some (Except.ok ["720p", "480p", "360p"]) := by
  obtain ⟨hiff, herr⟩ :=
    convert_join_semantics [("720p", none), ("480p", some "encode failed"), ("360p", none)]
  obtain ⟨hset, hres⟩ := herr [("720p", none)] "480p" "encode failed" [("360p", none)]
    rfl (by simp)
  obtain ⟨hiff2, _⟩ :=
    convert_join_semantics [("720p", none), ("480p", none), ("360p", none)]
  refine ⟨hset, hres ("720p", none) (by simp), ?_⟩
  exact (hiff2 (by simp)).mpr (by simp)

/-- C8 counterexample: an upload request with HLS conversion requested whose
encoder invocation fails is still answered 200 with the fixed success
message and a null hls field — the failure is only logged, so the route
reports overall success despite the encoder failure. -/
theorem upload_success_despite_encoder_failure :
    uploadLocalRoute true (Except.error ("ffmpeg exited with failure")) =
      ⟨200, "File uploaded successfully", none⟩ :=
  rfl

/-- C8 as amended: the upload route answers 200 with the success message for
every conversion outcome, reporting the rendition names only on success and
null otherwise (the caught failure is not rendered into the status); and the
asynchronous convert route answers the same processing acknowledgment for
every outcome, so encoder failures there are never rendered into an HTTP
status either. -/
theorem upload_and_convert_swallow_failures :
    (∀ out : Except String (List String),
      uploadLocalRoute true out =
        ⟨200, "File uploaded successfully",
          match out with
          | Except.ok qs => some qs
          | Except.error _ => none⟩) ∧
    (∀ out : Except String (List String),
      convertRouteAck out = ⟨200, "HLS conversion started", none⟩) := by
  constructor
  · intro out
    cases out <;> rfl
  · intro out
    rfl

theorem getLastD_mem {α : Type} : ∀ (l : List α) (d : α), l ≠ [] → l.getLastD d ∈ l
  | [], d, h => absurd rfl h
  | [a], d, _ => by simp [List.getLastD]
  | a :: b :: t2, d, _ => by
    have hmem := getLastD_mem (b :: t2) a (List.cons_ne_nil b t2)
    exact List.mem_cons_of_mem a hmem

theorem mem_dropLast {α : Type} : ∀ (l : List α) (x : α), x ∈ l.dropLast → x ∈ l
  | [], x, h => by simp at h
  | [a], x, h => by simp [List.dropLast] at h
  | a :: b :: t, x, h => by
    have h2 : x ∈ a :: (b :: t).dropLast := h
    rcases List.mem_cons.mp h2 with hh | ht2
    · exact hh ▸ List.mem_cons_self a (b :: t)
    · exact List.mem_cons_of_mem a (mem_dropLast (b :: t) x ht2)

theorem foldl_normSeg_normal :
    ∀ (segs : PathSegs) (acc : PathSegs),
      (∀ s ∈ segs, s ≠ [] ∧ s ≠ ['.'] ∧ s ≠ ['.', '.']) →
      segs.foldl normSeg acc = acc ++ segs := by
  intro segs
  induction segs with
  | nil =>
    intro acc h
    simp
  | cons s t ih =>
    intro acc h
    have hs := h s (by simp)
    have hstep : normSeg acc s = acc ++ [s] := by
      unfold normSeg
      rw [if_neg (not_or.mpr ⟨hs.1, hs.2.1⟩), if_neg hs.2.2]
    rw [List.foldl_cons, hstep, ih (acc ++ [s]) (fun x hm => h x (by simp [hm])),
      List.append_assoc]
    rfl

/-- C7 counterexample: with the HLS base directory srv/hls, an existing
stream movie and quality 720p, the segment name ../../../secret/file.ts
passes the .ts check, is joined without sanitization, resolves to
srv/secret/file.ts — outside the base directory — and is read and served;
no InvalidName rejection happens before the I/O. -/
theorem hlsSegment_escape_counterexample :
    hlsSegmentRequestPath ["srv".toList, "hls".toList] true ("movie".toList)
      ("720p".toList) ("../../../secret/file.ts".toList) =
      some ["srv".toList, "secret".toList, "file.ts".toList] ∧
    startsList ["srv".toList, "hls".toList]
      ["srv".toList, "secret".toList, "file.ts".toList] = false :=
  ⟨by decide, by decide⟩

/-- C7 as amended: the raw local video route is traversal-safe — for a base
directory with normal segments none of which carries a video extension,
every file the route opens lies under the base (the request filename is
reduced to its basename, and a basename of dot, double dot or empty fails
the extension check before any filesystem probe); the HLS segment path, by
contrast, is joined to its base without sanitization, so the segment name
../../../secret/file.ts under stream movie, quality 720p resolves outside
the base directory and is read there, with no InvalidName rejection. -/
theorem localRoute_traversal_safe (base : PathSegs) (filename : List Char)
    (fsHas : PathSegs → Bool)
    (hbase : ∀ s ∈ base, s ≠ [] ∧ s ≠ ['.'] ∧ s ≠ ['.', '.'])
    (hbext : ∀ s ∈ base, allowedVideoExts.contains (toLowerList (jsExtname s)) = false) :
    (∀ p, localVideoRoute base filename fsHas = some p →
      startsList base p = true) ∧
    hlsSegmentRequestPath ["srv".toList, "hls".toList] true ("movie".toList)
      ("720p".toList) ("../../../secret/file.ts".toList) =
      some ["srv".toList, "secret".toList, "file.ts".toList] ∧
    startsList ["srv".toList, "hls".toList]
      ["srv".toList, "secret".toList, "file.ts".toList] = false := by
  refine ⟨?_, by decide, by decide⟩
  intro p hp
  simp only [localVideoRoute] at hp
  have hjoin : pathJoinNorm base [jsPathBasename filename] =
      normSeg base (jsPathBasename filename) := by
    unfold pathJoinNorm
    rw [List.foldl_append, foldl_normSeg_normal base [] hbase]
    rfl
  by_cases hcn : jsPathBasename filename = [] ∨ jsPathBasename filename = ['.']
  · have hp0 : normSeg base (jsPathBasename filename) = base := by
      unfold normSeg
      rw [if_pos hcn]
    have hval : isValidVideoSeg base = false := by
      unfold isValidVideoSeg
      cases hb0 : base with
      | nil => decide
      | cons s0 t0 =>
        rw [hb0] at hbext
        exact hbext _ (getLastD_mem (s0 :: t0) [] (List.cons_ne_nil s0 t0))
    rw [hjoin, hp0, hval] at hp
    simp at hp
  · by_cases hdd : jsPathBasename filename = ['.', '.']
    · have hp0 : normSeg base (jsPathBasename filename) = base.dropLast := by
        unfold normSeg
        rw [if_neg hcn, if_pos hdd]
      have hval : isValidVideoSeg base.dropLast = false := by
        unfold isValidVideoSeg
        cases hd0 : base.dropLast with
        | nil => decide
        | cons s0 t0 =>
          have hmem0 : (s0 :: t0).getLastD [] ∈ s0 :: t0 :=
            getLastD_mem (s0 :: t0) [] (List.cons_ne_nil s0 t0)
          have hmem1 : (s0 :: t0).getLastD [] ∈ base.dropLast := by
            rw [hd0]
            exact hmem0
          exact hbext _ (mem_dropLast base _ hmem1)
      rw [hjoin, hp0, hval] at hp
      simp at hp
    · have hp0 : normSeg base (jsPathBasename filename) =
          base ++ [jsPathBasename filename] := by
        unfold normSeg
        rw [if_neg hcn, if_neg hdd]
      rw [hjoin, hp0] at hp
      by_cases h1 : isValidVideoSeg (base ++ [jsPathBasename filename]) = false
      · rw [if_pos h1] at hp
        simp at hp
      · rw [if_neg h1] at hp
        by_cases h2 : fsHas (base ++ [jsPathBasename filename]) = false
        · rw [if_pos h2] at hp
          simp at hp
        · rw [if_neg h2] at hp
          have hpe : base ++ [jsPathBasename filename] = p := by
            simpa using hp
          rw [← hpe]
          exact startsList_append base [jsPathBasename filename]

/-- Witness for the amended C7: under the base srv/videos, the traversal
attempt ../../movie.mp4 is reduced to its basename and served from inside
the base directory. -/
theorem localRoute_traversal_safe_witness :
    startsList ["srv".toList, "videos".toList]
      ["srv".toList, "videos".toList, "movie.mp4".toList] = true := by
  have h := (localRoute_traversal_safe ["srv".toList, "videos".toList]
    ("../../movie.mp4".toList) (fun _ => true) (by decide) (by decide)).1
  exact h ["srv".toList, "videos".toList, "movie.mp4".toList] (by decide)

/-- C9: deleting a stream name with no master playlist answers 404 and
leaves the filesystem unchanged; deleting an existing stream answers 200,
removes every file under the stream directory tree and keeps every file
outside it, and a subsequent streamExists check on the same name is false. -/
theorem deleteStream_semantics (fs : List PathSegs) (base : PathSegs)
    (name : List Char) :
    (streamExists fs base name = false → deleteRoute fs base name = (404, fs)) ∧
    (streamExists fs base name = true →
      (deleteRoute fs base name).1 = 200 ∧
      (∀ p ∈ (deleteRoute fs base name).2, startsList (base ++ [name]) p = false) ∧
      (∀ p ∈ fs, startsList (base ++ [name]) p = false →
        p ∈ (deleteRoute fs base name).2) ∧
      streamExists (deleteRoute fs base name).2 base name = false) := by
  constructor
  · intro h
    unfold deleteRoute
    rw [h, if_neg (show ¬ (false = true) by simp)]
  · intro h
    unfold deleteRoute
    rw [h, if_pos rfl]
    refine ⟨rfl, ?_, ?_, ?_⟩
    · intro p hp
      unfold deleteStream at hp
      rw [List.mem_filter] at hp
      simpa using hp.2
    · intro p hp hnp
      unfold deleteStream
      rw [List.mem_filter]
      exact ⟨hp, by simp [hnp]⟩
    · unfold streamExists deleteStream
      simp only [decide_eq_false_iff_not]
      intro hmem
      rw [List.mem_filter] at hmem
      have hpref : startsList (base ++ [name])
          (base ++ [name, "master.m3u8".toList]) = true := by
        have heq2 : base ++ [name, "master.m3u8".toList] =
            (base ++ [name]) ++ ["master.m3u8".toList] :=
          (List.append_assoc base [name] ["master.m3u8".toList]).symm
        rw [heq2]
        exact startsList_append _ _
      rw [hpref] at hmem
      simp at hmem

/-- Witness for C9: in a catalog holding streams movie (with a master
playlist and one segment file) and other, deleting the missing name answers
404 and changes nothing, while deleting movie answers 200 and a subsequent
existence check for movie is false. -/
theorem deleteStream_semantics_witness :
    deleteRoute [["hls".toList, "movie".toList, "master.m3u8".toList],
        ["hls".toList, "movie".toList, "720p".toList, "playlist.m3u8".toList],
        ["hls".toList, "other".toList, "master.m3u8".toList]]
      ["hls".toList] ("missing".toList) =
      (404, [["hls".toList, "movie".toList, "master.m3u8".toList],
        ["hls".toList, "movie".toList, "720p".toList, "playlist.m3u8".toList],
        ["hls".toList, "other".toList, "master.m3u8".toList]]) ∧
    (deleteRoute [["hls".toList, "movie".toList, "master.m3u8".toList],
        ["hls".toList, "movie".toList, "720p".toList, "playlist.m3u8".toList],
        ["hls".toList, "other".toList, "master.m3u8".toList]]
      ["hls".toList] ("movie".toList)).1 = 200 ∧
    streamExists (deleteRoute [["hls".toList, "movie".toList, "master.m3u8".toList],
        ["hls".toList, "movie".toList, "720p".toList, "playlist.m3u8".toList],
        ["hls".toList, "other".toList, "master.m3u8".toList]]
      ["hls".toList] ("movie".toList)).2 ["hls".toList] ("movie".toList) = false := by
  obtain ⟨h404, _⟩ := deleteStream_semantics
    [["hls".toList, "movie".toList, "master.m3u8".toList],
     ["hls".toList, "movie".toList, "720p".toList, "playlist.m3u8".toList],
     ["hls".toList, "other".toList, "master.m3u8".toList]]
    ["hls".toList] ("missing".toList)
  obtain ⟨_, h200⟩ := deleteStream_semantics
    [["hls".toList, "movie".toList, "master.m3u8".toList],
     ["hls".toList, "movie".toList, "720p".toList, "playlist.m3u8".toList],
     ["hls".toList, "other".toList, "master.m3u8".toList]]
    ["hls".toList] ("movie".toList)
  obtain ⟨ha, _, _, hd⟩ := h200 (by decide)
  exact ⟨h404 (by decide), ha, hd⟩
